import Mathlib

set_option maxRecDepth 100000

/-!
Shallow embedding of the microhook instrumentation subsystem
(src/linux-user/microhook.c and src/linux-user/microhook-coverage.c).

Python objects crossing the scripting boundary are modelled by the
inductive `PyVal` (CPython booleans are integers, so they appear as
`PyVal.int 0 / 1`).  A pre-hook callback is a function from the context
record to `Option (context, return value)`, where `Option.none` models a
raised Python exception.  Machine integers (`abi_long`, `uint64_t`,
`uint32_t`) are modelled as `Int` / `Nat`; the only places the C code
truncates are the drcov record fields, where the truncation is written
out explicitly (`% 2^32`, clamp to `0xFFFF`).  File output is modelled
by returning the written file as a value.
-/

namespace Microhook

/-- Model of a CPython value as it is observed by the C side of the
bridge: exact integers (`PyLong_Check`), lists, strings, and a catch-all
`none` for values the C code treats as neither int nor list nor string. -/
inductive PyVal where
  | int (n : Int)
  | list (xs : List PyVal)
  | str (s : String)
  | none

/-- Truthiness as computed by `PyObject_IsTrue` on the modelled values. -/
def PyVal.truthy : PyVal → Bool
  | .int n => n != 0
  | .list xs => !xs.isEmpty
  | .str s => !s.isEmpty
  | .none => false

/-- `PyLong_Check`: the value is an exact integer. -/
def PyVal.isInt : PyVal → Bool
  | .int _ => true
  | _ => false

/-- The context dictionary handed to a hook callback.  Each field is the
value found under the corresponding key by `PyDict_GetItemString`;
`Option.none` means the key is absent (the callback may delete keys).
The `cpu` sub-dictionary is opaque to the dispatch logic and omitted. -/
structure PyCtx where
  num : Option PyVal
  args : Option PyVal
  ret : Option PyVal

/-- A pre-syscall hook callback: maps the built context to the (possibly
mutated) context plus a return value, or `Option.none` when the
invocation raises. -/
def PreHook := PyCtx → Option (PyCtx × PyVal)

/-- A post-syscall hook callback: receives the context and the syscall
return value (as a Python int). -/
def PostHook := PyCtx → PyVal → Option (PyCtx × PyVal)

/-- MICROHOOK_CONTINUE / MICROHOOK_SKIP. -/
inductive MicrohookAction where
  | CONTINUE
  | SKIP
deriving DecidableEq, Repr

/-- MicrohookResult: action, (possibly modified) args, and the return
value used when the action is SKIP. -/
structure MicrohookResult where
  action : MicrohookAction
  args : List Int
  ret : Int
deriving DecidableEq, Repr

/-- Structured diagnostics emitted on the stderr path of dispatch. -/
inductive Diag where
  | preHookError (num : Int)
  | postHookError (num : Int)
deriving DecidableEq, Repr

/-- The context dict built by `microhook_pre_syscall`:
num, args (the eight abi_long arguments), and ret initialised to 0. -/
def buildPreCtx (num : Int) (args : List Int) : PyCtx :=
  { num := some (PyVal.int num)
    args := some (PyVal.list (args.map PyVal.int))
    ret := some (PyVal.int 0) }

/-- One step of the extraction loop over `ctx["args"]`: an integer
element overwrites `result->args[i]` (`PyLong_Check` passes), every
other element leaves the original argument in place. -/
def editArg (o : Int) (e : PyVal) : Int :=
  match e with
  | PyVal.int n => n
  | _ => o

/-- The extraction loop over `ctx["args"]`, applied index-wise. -/
def applyArgEdits (orig : List Int) (edited : List PyVal) : List Int :=
  List.zipWith editArg orig edited

/-- The read-back of `ctx["args"]`: only a list of exactly 8 elements is
applied (element-wise, via `applyArgEdits`); anything else leaves
`result->args` untouched. -/
def applyPreArgsEdit (origArgs : List Int) (r : MicrohookResult)
    (v : Option PyVal) : MicrohookResult :=
  match v with
  | Option.some (PyVal.list xs) =>
    if xs.length = 8 then { r with args := applyArgEdits origArgs xs } else r
  | _ => r

/-- The read-back of `ctx["ret"]`: only an integer value overwrites
`result->ret`. -/
def applyPreRetEdit (r : MicrohookResult) (v : Option PyVal) : MicrohookResult :=
  match v with
  | Option.some (PyVal.int n) => { r with ret := n }
  | _ => r

/-- `microhook_pre_syscall`, assuming the subsystem is enabled and the
hook dictionary exists.  Returns (invoked, result, diagnostics).  The
registry is the function `hooks` (the `g_pre_syscall_hooks` dict). -/
def microhook_pre_syscall (hooks : Int → Option PreHook) (num : Int)
    (args : List Int) : Bool × MicrohookResult × List Diag :=
  let result : MicrohookResult := { action := .CONTINUE, args := args, ret := 0 }
  match hooks num with
  | Option.none => (false, result, [])
  | Option.some cb =>
    match cb (buildPreCtx num args) with
    | Option.none => (false, result, [Diag.preHookError num])
    | Option.some (ctx2, rv) =>
      let result := if rv.truthy then { result with action := .SKIP } else result
      let result := applyPreArgsEdit args result ctx2.args
      let result := applyPreRetEdit result ctx2.ret
      (true, result, [])

/-- The context dict built by `microhook_post_syscall`: num and args
only — no "ret" key is inserted. -/
def buildPostCtx (num : Int) (args : List Int) : PyCtx :=
  { num := some (PyVal.int num)
    args := some (PyVal.list (args.map PyVal.int))
    ret := Option.none }

/-- `microhook_post_syscall`, assuming the subsystem is enabled.
Returns (new return value, diagnostics). -/
def microhook_post_syscall (hooks : Int → Option PostHook) (num : Int)
    (ret : Int) (args : List Int) : Int × List Diag :=
  match hooks num with
  | Option.none => (ret, [])
  | Option.some cb =>
    match cb (buildPostCtx num args) (PyVal.int ret) with
    | Option.none => (ret, [Diag.postHookError num])
    | Option.some (_, rv) =>
      match rv with
      | PyVal.int n => (n, [])
      | _ => (ret, [])

/-- Convert a list of Python values to integers, failing if any element
is not an exact integer. -/
def asInts : List PyVal → Option (List Int)
  | [] => some []
  | PyVal.int n :: rest => (asInts rest).map (fun ns => n :: ns)
  | _ => Option.none

/- ---------------- Coverage recorder ---------------- -/

/-- One 8-byte drcov basic-block record: u32 offset from module base,
u16 size (clamped), u16 module id. -/
structure DrcovEntry where
  start : Nat
  size : Nat
  modId : Nat
deriving DecidableEq, Repr

/-- The flushed file: the N of the "BB Table: N bbs" header line,
the module row range, and the binary body records. -/
structure DrcovFile where
  bbCount : Nat
  moduleStart : Nat
  moduleEnd : Nat
  records : List DrcovEntry
deriving DecidableEq, Repr

/-- Coverage recorder state while enabled: the deduplicated block set
(`g_blocks`, kept here in insertion order), the periodic-flush counter
(`g_new_block_count`), and the code range from `set_binary_info`. -/
structure CovState where
  blocks : List (Nat × Nat)
  newBlockCount : Nat
  startCode : Nat
  endCode : Nat
deriving DecidableEq, Repr

/-- `g_hash_table_contains(g_blocks, &pc)`. -/
def containsPc (blocks : List (Nat × Nat)) (pc : Nat) : Bool :=
  blocks.any (fun b => b.1 == pc)

/-- Freshly initialised recorder (`microhook_coverage_init` followed by
`set_binary_info`): empty block set, counter 0. -/
def init_state (startCode endCode : Nat) : CovState :=
  { blocks := [], newBlockCount := 0, startCode := startCode, endCode := endCode }

/-- `microhook_coverage_set_binary_info`, restricted to the fields the
claims touch: it updates the code range and leaves the block set and
counter alone. -/
def set_binary_info (st : CovState) (startCode endCode : Nat) : CovState :=
  { st with startCode := startCode, endCode := endCode }

/-- `write_block_cb`: emit a record when `base <= pc < g_end_code`;
the offset is the u32 cast of `pc - base`, the size is clamped to
0xFFFF, the module id is 0. -/
def write_block_cb (base endCode : Nat) (b : Nat × Nat) : Option DrcovEntry :=
  if base ≤ b.1 && b.1 < endCode then
    some { start := (b.1 - base) % 4294967296
           size := if b.2 > 65535 then 65535 else b.2
           modId := 0 }
  else Option.none

/-- The write pass of the flush (`g_hash_table_foreach` with
`write_block_cb`). -/
def write_blocks (blocks : List (Nat × Nat)) (base endCode : Nat) :
    List DrcovEntry :=
  blocks.filterMap (write_block_cb base endCode)

/-- `count_block_cb`: count a block when `base <= pc < g_end_code`. -/
def count_block_cb (base endCode : Nat) (b : Nat × Nat) : Bool :=
  base ≤ b.1 && b.1 < endCode

/-- The counting pass of the flush. -/
def count_blocks (blocks : List (Nat × Nat)) (base endCode : Nat) : Nat :=
  (blocks.filter (count_block_cb base endCode)).length

/-- `microhook_coverage_flush_unlocked`: count the in-range blocks,
write the header with that count, then (only when the count is positive)
run the write pass over the same set. -/
def microhook_coverage_flush (st : CovState) : DrcovFile :=
  let blockCount := count_blocks st.blocks st.startCode st.endCode
  { bbCount := blockCount
    moduleStart := st.startCode
    moduleEnd := st.endCode
    records :=
      if blockCount > 0 then write_blocks st.blocks st.startCode st.endCode
      else [] }

/-- `microhook_coverage_record_block` under the lock: a duplicate pc is
a no-op; a first sighting inserts `(pc, size)` and increments the
counter; when the counter reaches 100 (`COVERAGE_FLUSH_INTERVAL`) a full
flush fires and the counter resets to 0.  The returned option is the
file written by the triggered flush, if any. -/
def record_block (st : CovState) (pc size : Nat) :
    CovState × Option DrcovFile :=
  if containsPc st.blocks pc then (st, Option.none)
  else
    let st1 : CovState :=
      { st with blocks := st.blocks ++ [(pc, size)]
                newBlockCount := st.newBlockCount + 1 }
    if st1.newBlockCount ≥ 100 then
      ({ st1 with newBlockCount := 0 }, some (microhook_coverage_flush st1))
    else (st1, Option.none)

/-- Run a sequence of `record_block` calls, collecting every flushed
file in order. -/
def record_blocks (st : CovState) : List (Nat × Nat) → CovState × List DrcovFile
  | [] => (st, [])
  | c :: cs =>
    let r1 := record_block st c.1 c.2
    let r2 := record_blocks r1.1 cs
    (r2.1, r1.2.toList ++ r2.2)

/-- Lookup of the recorded size for a pc in the block set. -/
def lookupPc (blocks : List (Nat × Nat)) (pc : Nat) : Option Nat :=
  (blocks.find? (fun b => b.1 == pc)).map (fun b => b.2)

/- ---------------- Filename templater ---------------- -/

/-- Broken-down local time, after the `struct tm` adjustments
(`tm_year + 1900`, `tm_mon + 1`) have been applied. -/
structure Tm where
  year : Nat
  month : Nat
  day : Nat
  hour : Nat
  minute : Nat
  second : Nat

/-- Two-digit zero-padded decimal field (strftime %m %d %H %M %S). -/
def pad2 (n : Nat) : List Char :=
  [Nat.digitChar (n / 10 % 10), Nat.digitChar (n % 10)]

/-- Four-digit zero-padded decimal field (strftime %Y for years up to
9999). -/
def pad4 (n : Nat) : List Char :=
  [Nat.digitChar (n / 1000 % 10), Nat.digitChar (n / 100 % 10),
   Nat.digitChar (n / 10 % 10), Nat.digitChar (n % 10)]

/-- Model of `strftime(buf, .., "%Y-%m-%d-%H:%M:%S", tm)`. -/
def strftimeDatetime (tm : Tm) : List Char :=
  pad4 tm.year ++ '-' :: pad2 tm.month ++ '-' :: pad2 tm.day ++
  '-' :: pad2 tm.hour ++ ':' :: pad2 tm.minute ++ ':' :: pad2 tm.second

/-- The scan loop of `expand_filename_template`: `%d` appends the
datetime, `%s` appends the program name, `%%` appends a single `%`, any
other `%X` falls through the switch and both characters are copied; a
trailing `%` is copied as-is. -/
def expandChars (dt prog : List Char) : List Char → List Char
  | [] => []
  | c :: rest =>
    if c = '%' then
      match rest with
      | [] => ['%']
      | c2 :: rest2 =>
        if c2 = 'd' then dt ++ expandChars dt prog rest2
        else if c2 = 's' then prog ++ expandChars dt prog rest2
        else if c2 = '%' then '%' :: expandChars dt prog rest2
        else '%' :: expandChars dt prog (c2 :: rest2)
    else c :: expandChars dt prog rest

/-- `expand_filename_template(template, progname)`, with the current
local time passed explicitly.  A null progname becomes the literal
"unknown". -/
def expand_filename_template (tpl : String) (progname : Option String)
    (tm : Tm) : String :=
  let prog := match progname with
    | some p => p
    | Option.none => "unknown"
  String.mk (expandChars (strftimeDatetime tm) prog.data tpl.data)

/-- Checker for the shape `YYYY-MM-DD-HH:MM:SS`: 19 characters, digits
in the date/time positions, the literal separators in between. -/
def matchesTimestampFormat (s : List Char) : Bool :=
  match s with
  | [y1, y2, y3, y4, a, m1, m2, b, d1, d2, c, h1, h2, d, i1, i2, e, s1, s2] =>
    y1.isDigit && y2.isDigit && y3.isDigit && y4.isDigit && a = '-' &&
    m1.isDigit && m2.isDigit && b = '-' && d1.isDigit && d2.isDigit &&
    c = '-' && h1.isDigit && h2.isDigit && d = ':' && i1.isDigit &&
    i2.isDigit && e = ':' && s1.isDigit && s2.isDigit
  | _ => false

/- ---------------- Concrete fixtures used by witnesses ---------------- -/

/-- Eight concrete syscall arguments. -/
def argsW : List Int := [10, 11, 12, 13, 14, 15, 16, 17]

/-- A pre-hook that edits `ctx["ret"]` to -13 and returns truthy. -/
def preCbSkip : PreHook :=
  fun ctx => some ({ ctx with ret := some (PyVal.int (-13)) }, PyVal.int 1)

/-- The context left behind by `preCbSkip`. -/
def ctxSkipW : PyCtx :=
  { num := some (PyVal.int 2)
    args := some (PyVal.list (argsW.map PyVal.int))
    ret := some (PyVal.int (-13)) }

/-- A pre-hook that replaces `ctx["args"]` with 8 integers and returns
falsy. -/
def preCbFalsy : PreHook :=
  fun ctx =>
    some ({ ctx with args := some (PyVal.list
      [PyVal.int 20, PyVal.int 21, PyVal.int 22, PyVal.int 23,
       PyVal.int 24, PyVal.int 25, PyVal.int 26, PyVal.int 27]) }, PyVal.int 0)

/-- The context left behind by `preCbFalsy` at syscall 3. -/
def ctxFalsyW : PyCtx :=
  { num := some (PyVal.int 3)
    args := some (PyVal.list
      [PyVal.int 20, PyVal.int 21, PyVal.int 22, PyVal.int 23,
       PyVal.int 24, PyVal.int 25, PyVal.int 26, PyVal.int 27])
    ret := some (PyVal.int 0) }

/-- A pre-hook that replaces `ctx["args"]` with a 2-element list. -/
def preCbBad : PreHook :=
  fun ctx =>
    some ({ ctx with args := some (PyVal.list [PyVal.int 1, PyVal.int 2]) },
      PyVal.int 0)

/-- The context left behind by `preCbBad` at syscall 4. -/
def ctxBadW : PyCtx :=
  { num := some (PyVal.int 4)
    args := some (PyVal.list [PyVal.int 1, PyVal.int 2])
    ret := some (PyVal.int 0) }

/-- A pre-hook that edits the args list element-wise: integers in some
slots, non-integers elsewhere. -/
def preCbMixed : PreHook :=
  fun ctx =>
    some ({ ctx with args := some (PyVal.list
      [PyVal.int 100, PyVal.str "x", PyVal.int 102, PyVal.none,
       PyVal.int 104, PyVal.int 105, PyVal.int 106, PyVal.int 107]) },
      PyVal.int 0)

/-- The context left behind by `preCbMixed` at syscall 5. -/
def ctxMixedW : PyCtx :=
  { num := some (PyVal.int 5)
    args := some (PyVal.list
      [PyVal.int 100, PyVal.str "x", PyVal.int 102, PyVal.none,
       PyVal.int 104, PyVal.int 105, PyVal.int 106, PyVal.int 107])
    ret := some (PyVal.int 0) }

/-- A pre-hook whose invocation raises. -/
def preCbFail : PreHook := fun _ => Option.none

/-- A post-hook that returns the integer 42. -/
def postCbOk : PostHook := fun ctx _ => some (ctx, PyVal.int 42)

/-- Count/startCode/endCode invariant maintained by the recorder: the
periodic-flush counter always equals the number of recorded blocks
modulo the flush interval, and the code range is never changed by
`record_block`. -/
def covInv (s e : Nat) (st : CovState) : Prop :=
  st.newBlockCount = st.blocks.length % 100 ∧ st.startCode = s ∧ st.endCode = e

/- ---------------- Helper lemmas ---------------- -/

lemma length_write_blocks (blocks : List (Nat × Nat)) (base endCode : Nat) :
    (write_blocks blocks base endCode).length = count_blocks blocks base endCode := by
  induction blocks with
  | nil => rfl
  | cons b bs ih =>
    unfold write_blocks count_blocks at ih ⊢
    by_cases h : (base ≤ b.1 && b.1 < endCode) = true
    · simp only [List.filterMap_cons, List.filter_cons, write_block_cb,
        count_block_cb, h, if_true, List.length_cons]
      omega
    · simp only [List.filterMap_cons, List.filter_cons, write_block_cb,
        count_block_cb, h, if_false]
      simpa using ih

lemma flush_records_length (st : CovState) :
    (microhook_coverage_flush st).records.length =
      count_blocks st.blocks st.startCode st.endCode := by
  unfold microhook_coverage_flush
  by_cases h : count_blocks st.blocks st.startCode st.endCode > 0
  · simp only [h, if_true]
    exact length_write_blocks st.blocks st.startCode st.endCode
  · simp only [h, if_false, List.length_nil]
    omega

lemma covInv_record_block {s e : Nat} {st : CovState} (pc size : Nat)
    (h : covInv s e st) : covInv s e (record_block st pc size).1 := by
  obtain ⟨h1, h2, h3⟩ := h
  unfold record_block
  by_cases hc : containsPc st.blocks pc
  · simp only [hc, if_true]
    exact ⟨h1, h2, h3⟩
  · simp only [hc, if_false]
    by_cases hcnt : st.newBlockCount + 1 ≥ 100
    · simp only [hcnt, if_true]
      refine ⟨?_, h2, h3⟩
      show (0 : Nat) = (st.blocks ++ [(pc, size)]).length % 100
      rw [List.length_append]
      simp only [List.length_cons, List.length_nil]
      omega
    · simp only [hcnt, if_false]
      refine ⟨?_, h2, h3⟩
      show st.newBlockCount + 1 = (st.blocks ++ [(pc, size)]).length % 100
      rw [List.length_append]
      simp only [List.length_cons, List.length_nil]
      omega

lemma covInv_record_blocks {s e : Nat} {st : CovState} (h : covInv s e st)
    (calls : List (Nat × Nat)) : covInv s e (record_blocks st calls).1 := by
  induction calls generalizing st with
  | nil => exact h
  | cons c cs ih =>
    show covInv s e (record_blocks (record_block st c.1 c.2).1 cs).1
    exact ih (covInv_record_block c.1 c.2 h)

lemma record_block_dup {st : CovState} {pc : Nat} (size : Nat)
    (h : containsPc st.blocks pc = true) :
    record_block st pc size = (st, Option.none) := by
  unfold record_block
  simp [h]

lemma record_block_new {st : CovState} {pc : Nat} (size : Nat)
    (h : containsPc st.blocks pc = false) :
    ((record_block st pc size).1).blocks = st.blocks ++ [(pc, size)] := by
  unfold record_block
  by_cases h2 : st.newBlockCount + 1 ≥ 100 <;> simp [h, h2]

lemma record_block_blocks (st : CovState) (pc size : Nat) :
    ((record_block st pc size).1.blocks = st.blocks) ∨
    (containsPc st.blocks pc = false ∧
      (record_block st pc size).1.blocks = st.blocks ++ [(pc, size)]) := by
  by_cases h : containsPc st.blocks pc
  · left
    rw [record_block_dup size h]
  · right
    exact ⟨by simpa using h, record_block_new size (by simpa using h)⟩

lemma containsPc_append (l1 l2 : List (Nat × Nat)) (pc : Nat) :
    containsPc (l1 ++ l2) pc = (containsPc l1 pc || containsPc l2 pc) := by
  simp [containsPc, List.any_append]

lemma record_blocks_extend (st : CovState) (calls : List (Nat × Nat)) :
    ∃ tail, (record_blocks st calls).1.blocks = st.blocks ++ tail ∧
      ∀ b ∈ tail, containsPc st.blocks b.1 = false := by
  induction calls generalizing st with
  | nil => exact ⟨[], by simp [record_blocks], by simp⟩
  | cons c cs ih =>
    obtain ⟨t, ht, hf⟩ := ih ((record_block st c.1 c.2).1)
    rcases record_block_blocks st c.1 c.2 with heq | ⟨hfr, heq⟩
    · refine ⟨t, ?_, ?_⟩
      · show (record_blocks (record_block st c.1 c.2).1 cs).1.blocks = st.blocks ++ t
        rw [ht, heq]
      · intro b hb
        have := hf b hb
        rwa [heq] at this
    · refine ⟨(c.1, c.2) :: t, ?_, ?_⟩
      · show (record_blocks (record_block st c.1 c.2).1 cs).1.blocks =
          st.blocks ++ (c.1, c.2) :: t
        rw [ht, heq, List.append_assoc, List.singleton_append]
      · intro b hb
        rcases List.mem_cons.mp hb with rfl | hbt
        · exact hfr
        · have := hf b hbt
          rw [heq, containsPc_append] at this
          exact (Bool.or_eq_false_iff.mp this).1

lemma find?_append_left {α : Type} {p : α → Bool} {l1 : List α} (l2 : List α)
    {x : α} (h : l1.find? p = some x) : (l1 ++ l2).find? p = some x := by
  induction l1 with
  | nil => simp [List.find?] at h
  | cons a t ih =>
    rw [List.cons_append]
    by_cases hp : p a
    · rw [List.find?_cons_of_pos _ hp] at h ⊢
      exact h
    · rw [List.find?_cons_of_neg _ hp] at h ⊢
      exact ih h

lemma lookupPc_extend (st : CovState) (calls : List (Nat × Nat)) (pc sz : Nat)
    (h : lookupPc st.blocks pc = some sz) :
    lookupPc ((record_blocks st calls).1).blocks pc = some sz := by
  obtain ⟨t, ht, -⟩ := record_blocks_extend st calls
  rw [ht]
  unfold lookupPc at h ⊢
  cases hfind : st.blocks.find? (fun b => b.1 == pc) with
  | none => rw [hfind] at h; simp at h
  | some b =>
    rw [hfind] at h
    rw [find?_append_left _ hfind]
    exact h

/- ---------------- Claim theorems ---------------- -/

/-- Claim C9: in every flush, the count N in the "BB Table: N bbs"
header equals the number of 8-byte block records written to the body:
the counting pass and the writing pass apply the same in-range filter to
the same block set. -/
theorem flush_header_count_matches_body (st : CovState) :
    (microhook_coverage_flush st).bbCount =
      (microhook_coverage_flush st).records.length := by
  rw [flush_records_length]
  rfl

/-- Claim C1, counterexample: from a fresh recorder with code range
[0, 1000), record one out-of-range distinct block (pc 5000) and then 99
in-range distinct blocks (pcs 0..98).  The flush fires at the 100th
distinct block overall, with only 99 records in the body; the 101st call
— the one recording the 100th distinct in-range block (pc 99) — triggers
no flush and leaves the counter at 1, contradicting the claim that the
100th distinct in-range block triggers the flush with exactly 100
records regardless of out-of-range blocks in between. -/
theorem coverage_hundredth_inrange_no_flush :
    ((record_blocks (init_state 0 1000)
        ((5000, 1) :: (List.range 99).map (fun i => (i, 1)))).2.map
        (fun f => f.records.length) = [99]) ∧
    ((record_block
        ((record_blocks (init_state 0 1000)
          ((5000, 1) :: (List.range 99).map (fun i => (i, 1)))).1) 99 1).2 =
      Option.none) ∧
    ((record_block
        ((record_blocks (init_state 0 1000)
          ((5000, 1) :: (List.range 99).map (fun i => (i, 1)))).1) 99 1).1.newBlockCount
      = 1) := by
  decide

/-- Claim C1, amended: from a fresh recorder, the call that records the
100th distinct block (in-range or not) triggers exactly one flush, the
flushed body contains one 8-byte record per in-range block among the 100
recorded — exactly 100 when every recorded block is in range — and the
new-block counter resets to 0.  Duplicates never advance the counter. -/
theorem coverage_hundredth_distinct_flush (s e pc size : Nat)
    (calls : List (Nat × Nat))
    (h99 : ((record_blocks (init_state s e) calls).1).blocks.length = 99)
    (hnew : containsPc ((record_blocks (init_state s e) calls).1).blocks pc
      = false) :
    ∃ f : DrcovFile,
      (record_block ((record_blocks (init_state s e) calls).1) pc size).2
        = some f ∧
      ((record_block ((record_blocks (init_state s e) calls).1) pc size).1).newBlockCount
        = 0 ∧
      f.records.length =
        count_blocks (((record_blocks (init_state s e) calls).1).blocks
          ++ [(pc, size)]) s e ∧
      ((∀ b ∈ ((record_blocks (init_state s e) calls).1).blocks ++ [(pc, size)],
          s ≤ b.1 ∧ b.1 < e) →
        f.records.length = 100) := by
  have hinv : covInv s e (record_blocks (init_state s e) calls).1 :=
    covInv_record_blocks ⟨rfl, rfl, rfl⟩ calls
  obtain ⟨h1, h2, h3⟩ := hinv
  set st := (record_blocks (init_state s e) calls).1 with hst
  have hcnt : st.newBlockCount = 99 := by rw [h1, h99]
  have hstep : record_block st pc size =
      ({ st with blocks := st.blocks ++ [(pc, size)], newBlockCount := 0 },
       some (microhook_coverage_flush
         { st with blocks := st.blocks ++ [(pc, size)],
                   newBlockCount := st.newBlockCount + 1 })) := by
    unfold record_block
    rw [hnew]
    simp only [Bool.false_eq_true, if_false]
    rw [if_pos (by omega)]
  refine ⟨microhook_coverage_flush
      { st with blocks := st.blocks ++ [(pc, size)],
                newBlockCount := st.newBlockCount + 1 }, ?_, ?_, ?_, ?_⟩
  · rw [hstep]
  · rw [hstep]
  · rw [flush_records_length]
    show count_blocks (st.blocks ++ [(pc, size)]) st.startCode st.endCode = _
    rw [h2, h3]
  · intro hall
    rw [flush_records_length]
    show count_blocks (st.blocks ++ [(pc, size)]) st.startCode st.endCode = 100
    rw [h2, h3]
    unfold count_blocks
    rw [List.filter_eq_self.mpr]
    · rw [List.length_append, h99]
      rfl
    · intro b hb
      have := hall b hb
      simp only [count_block_cb, Bool.and_eq_true, decide_eq_true_eq]
      exact this

/-- Claim C1, witness for the amended theorem: 99 fresh in-range blocks
followed by a 100th fresh block. -/
theorem coverage_hundredth_distinct_flush_witness :
    (((record_blocks (init_state 0 1000)
        ((List.range 99).map (fun i => (i, 1)))).1).blocks.length = 99) ∧
    (containsPc ((record_blocks (init_state 0 1000)
        ((List.range 99).map (fun i => (i, 1)))).1).blocks 99 = false) ∧
    (∃ f : DrcovFile,
      (record_block ((record_blocks (init_state 0 1000)
        ((List.range 99).map (fun i => (i, 1)))).1) 99 7).2 = some f ∧
      ((record_block ((record_blocks (init_state 0 1000)
        ((List.range 99).map (fun i => (i, 1)))).1) 99 7).1).newBlockCount = 0 ∧
      f.records.length =
        count_blocks (((record_blocks (init_state 0 1000)
          ((List.range 99).map (fun i => (i, 1)))).1).blocks ++ [(99, 7)]) 0 1000 ∧
      ((∀ b ∈ ((record_blocks (init_state 0 1000)
          ((List.range 99).map (fun i => (i, 1)))).1).blocks ++ [(99, 7)],
          0 ≤ b.1 ∧ b.1 < 1000) →
        f.records.length = 100)) :=
  ⟨by decide, by decide,
   coverage_hundredth_distinct_flush 0 1000 99 7
     ((List.range 99).map (fun i => (i, 1))) (by decide) (by decide)⟩

/-- Claim C6: recording a pc twice (with arbitrary other recordings in
between) leaves exactly one block entry for that pc, carrying the first
size; the block set only ever grows by appending; a size, once recorded
for a pc, is never updated by later recordings; and
`set_binary_info` leaves the block set untouched. -/
theorem coverage_first_size_retained :
    (∀ (st : CovState) (pc s1 s2 : Nat) (mid : List (Nat × Nat)),
      containsPc st.blocks pc = false →
      (((record_block ((record_blocks ((record_block st pc s1).1) mid).1)
          pc s2).1).blocks.filter (fun b => b.1 == pc)) = [(pc, s1)]) ∧
    (∀ (st : CovState) (calls : List (Nat × Nat)),
      ∃ tail, ((record_blocks st calls).1).blocks = st.blocks ++ tail) ∧
    (∀ (st : CovState) (calls : List (Nat × Nat)) (pc sz : Nat),
      lookupPc st.blocks pc = some sz →
      lookupPc ((record_blocks st calls).1).blocks pc = some sz) ∧
    (∀ (st : CovState) (s e : Nat), (set_binary_info st s e).blocks = st.blocks) := by
  refine ⟨?_, ?_, ?_, ?_⟩
  · intro st pc s1 s2 mid hfresh
    have hst1 : ((record_block st pc s1).1).blocks = st.blocks ++ [(pc, s1)] :=
      record_block_new s1 hfresh
    obtain ⟨t, ht, hf⟩ := record_blocks_extend ((record_block st pc s1).1) mid
    have hmem : containsPc ((record_blocks ((record_block st pc s1).1) mid).1).blocks pc
        = true := by
      rw [ht, hst1, containsPc_append, containsPc_append]
      have : containsPc [(pc, s1)] pc = true := by simp [containsPc]
      rw [this]
      simp
    rw [record_block_dup s2 hmem]
    rw [ht, hst1, List.filter_append, List.filter_append]
    have hl : st.blocks.filter (fun b => b.1 == pc) = [] := by
      rw [List.filter_eq_nil_iff]
      intro b hb
      simp only [containsPc, List.any_eq_false] at hfresh
      simpa using hfresh b hb
    have hm : [(pc, s1)].filter (fun b => b.1 == pc) = [(pc, s1)] := by simp
    have htail : t.filter (fun b => b.1 == pc) = [] := by
      rw [List.filter_eq_nil_iff]
      intro b hb
      have hfb := hf b hb
      rw [hst1, containsPc_append] at hfb
      have h2 := (Bool.or_eq_false_iff.mp hfb).2
      have hne : pc ≠ b.1 := by
        simp only [containsPc, List.any_cons, List.any_nil, Bool.or_false] at h2
        simpa using h2
      simp only [beq_iff_eq]
      intro hbp
      exact hne hbp.symm
    rw [hl, hm, htail]
    rfl
  · intro st calls
    obtain ⟨t, ht, -⟩ := record_blocks_extend st calls
    exact ⟨t, ht⟩
  · intro st calls pc sz h
    exact lookupPc_extend st calls pc sz h
  · intro st s e
    rfl

/-- Claim C6, witness: record pc 3 with size 4, then pc 5, then pc 3
again with size 9; exactly one entry for pc 3 survives and it carries
size 4. -/
theorem coverage_first_size_retained_witness :
    (containsPc (init_state 0 10).blocks 3 = false) ∧
    (((record_block ((record_blocks ((record_block (init_state 0 10) 3 4).1)
        [(5, 7)]).1) 3 9).1).blocks.filter (fun b => b.1 == 3) = [(3, 4)]) :=
  ⟨by decide,
   coverage_first_size_retained.1 (init_state 0 10) 3 4 9 [(5, 7)] (by decide)⟩

/- ---------------- Dispatch helper lemmas ---------------- -/

lemma applyPreArgsEdit_action (a : List Int) (r : MicrohookResult)
    (v : Option PyVal) : (applyPreArgsEdit a r v).action = r.action := by
  cases v with
  | none => rfl
  | some pv =>
    cases pv with
    | int n => rfl
    | list xs =>
      show (if xs.length = 8
        then { r with args := applyArgEdits a xs } else r).action = r.action
      split <;> rfl
    | str s => rfl
    | none => rfl

lemma applyPreArgsEdit_ret (a : List Int) (r : MicrohookResult)
    (v : Option PyVal) : (applyPreArgsEdit a r v).ret = r.ret := by
  cases v with
  | none => rfl
  | some pv =>
    cases pv with
    | int n => rfl
    | list xs =>
      show (if xs.length = 8
        then { r with args := applyArgEdits a xs } else r).ret = r.ret
      split <;> rfl
    | str s => rfl
    | none => rfl

lemma applyPreArgsEdit_list8 (a : List Int) (r : MicrohookResult)
    {xs : List PyVal} (h : xs.length = 8) :
    applyPreArgsEdit a r (some (PyVal.list xs)) =
      { r with args := applyArgEdits a xs } := by
  show (if xs.length = 8 then { r with args := applyArgEdits a xs } else r) = _
  rw [if_pos h]

lemma applyPreArgsEdit_keep (a : List Int) (r : MicrohookResult)
    {v : Option PyVal}
    (h : ∀ xs : List PyVal, v = some (PyVal.list xs) → xs.length ≠ 8) :
    applyPreArgsEdit a r v = r := by
  cases v with
  | none => rfl
  | some pv =>
    cases pv with
    | int n => rfl
    | list xs =>
      show (if xs.length = 8
        then { r with args := applyArgEdits a xs } else r) = r
      rw [if_neg (h xs rfl)]
    | str s => rfl
    | none => rfl

lemma applyPreRetEdit_action (r : MicrohookResult) (v : Option PyVal) :
    (applyPreRetEdit r v).action = r.action := by
  unfold applyPreRetEdit
  cases v with
  | none => rfl
  | some pv => cases pv <;> rfl

lemma applyPreRetEdit_args (r : MicrohookResult) (v : Option PyVal) :
    (applyPreRetEdit r v).args = r.args := by
  unfold applyPreRetEdit
  cases v with
  | none => rfl
  | some pv => cases pv <;> rfl

lemma applyPreRetEdit_int (r : MicrohookResult) (n : Int) :
    (applyPreRetEdit r (some (PyVal.int n))).ret = n := rfl

lemma pre_syscall_eq (hooks : Int → Option PreHook) (num : Int)
    (args : List Int) (cb : PreHook) (ctx2 : PyCtx) (rv : PyVal)
    (hcb : hooks num = some cb)
    (hinv : cb (buildPreCtx num args) = some (ctx2, rv)) :
    microhook_pre_syscall hooks num args =
      (true,
       applyPreRetEdit
         (applyPreArgsEdit args
           (if rv.truthy
            then { action := MicrohookAction.SKIP, args := args, ret := 0 }
            else { action := MicrohookAction.CONTINUE, args := args, ret := 0 })
           ctx2.args)
         ctx2.ret,
       []) := by
  simp only [microhook_pre_syscall, hcb, hinv]

lemma ite_result_args (c : Prop) [Decidable c] (args : List Int) :
    ((if c
      then { action := MicrohookAction.SKIP, args := args, ret := 0 }
      else { action := MicrohookAction.CONTINUE, args := args, ret := 0 }
      : MicrohookResult)).args = args := by
  split <;> rfl

lemma applyArgEdits_asInts :
    ∀ (orig : List Int) (xs : List PyVal) (ns : List Int),
      asInts xs = some ns → orig.length = xs.length →
      applyArgEdits orig xs = ns := by
  intro orig xs
  induction xs generalizing orig with
  | nil =>
    intro ns hns hlen
    cases orig with
    | nil =>
      simp only [asInts, Option.some.injEq] at hns
      rw [← hns]
      rfl
    | cons o ot => simp at hlen
  | cons x xt ih =>
    intro ns hns hlen
    cases orig with
    | nil => simp at hlen
    | cons o ot =>
      cases x with
      | int n =>
        simp only [asInts] at hns
        cases hxt : asInts xt with
        | none => rw [hxt] at hns; simp at hns
        | some nt =>
          rw [hxt] at hns
          simp at hns
          rw [← hns]
          show n :: applyArgEdits ot xt = n :: nt
          rw [ih ot nt hxt (by simpa using hlen)]
      | list l => simp [asInts] at hns
      | str s => simp [asInts] at hns
      | none => simp [asInts] at hns

lemma applyArgEdits_getElem :
    ∀ (orig : List Int) (xs : List PyVal) (i : Nat),
      i < orig.length → i < xs.length →
      (applyArgEdits orig xs)[i]? =
        (match xs[i]? with
         | some (PyVal.int n) => some n
         | _ => orig[i]?) := by
  intro orig
  induction orig with
  | nil => intro xs i h1 h2; simp at h1
  | cons o ot ih =>
    intro xs i h1 h2
    cases xs with
    | nil => simp at h2
    | cons x xt =>
      have hcons : applyArgEdits (o :: ot) (x :: xt) =
          editArg o x :: applyArgEdits ot xt := rfl
      cases i with
      | zero =>
        rw [hcons]
        simp only [List.getElem?_cons_zero]
        cases x <;> rfl
      | succ j =>
        rw [hcons]
        simp only [List.getElem?_cons_succ]
        exact ih xt j (by simpa using h1) (by simpa using h2)

/- ---------------- Dispatch claim theorems ---------------- -/

/-- Claim C7: with no pre-hook registered for the syscall number,
pre-dispatch reports invoked=false, action CONTINUE, the eight input
args unchanged, ret 0, and emits no diagnostic. -/
theorem pre_dispatch_no_hook (hooks : Int → Option PreHook) (num : Int)
    (args : List Int) (h : hooks num = Option.none) :
    microhook_pre_syscall hooks num args =
      (false,
       { action := MicrohookAction.CONTINUE, args := args, ret := 0 }, []) := by
  unfold microhook_pre_syscall
  rw [h]

/-- Claim C7, witness: an empty registry at syscall 5. -/
theorem pre_dispatch_no_hook_witness :
    ((fun _ : Int => (Option.none : Option PreHook)) 5 = Option.none) ∧
    microhook_pre_syscall (fun _ => Option.none) 5 argsW =
      (false,
       { action := MicrohookAction.CONTINUE, args := argsW, ret := 0 }, []) :=
  ⟨rfl, pre_dispatch_no_hook (fun _ => Option.none) 5 argsW rfl⟩

/-- Claim C3: when the registered pre-hook's invocation raises, the
failure is caught at the dispatch boundary: invoked=false, action
CONTINUE, the original eight args (and ret 0), plus exactly one
diagnostic carrying the syscall number. -/
theorem pre_dispatch_catches_failure (hooks : Int → Option PreHook)
    (num : Int) (args : List Int) (cb : PreHook)
    (hcb : hooks num = some cb)
    (hfail : cb (buildPreCtx num args) = Option.none) :
    microhook_pre_syscall hooks num args =
      (false,
       { action := MicrohookAction.CONTINUE, args := args, ret := 0 },
       [Diag.preHookError num]) := by
  simp only [microhook_pre_syscall, hcb, hfail]

/-- Claim C3, witness: a raising pre-hook at syscall 7. -/
theorem pre_dispatch_catches_failure_witness :
    ((fun _ : Int => some preCbFail) 7 = some preCbFail) ∧
    (preCbFail (buildPreCtx 7 argsW) = Option.none) ∧
    microhook_pre_syscall (fun _ => some preCbFail) 7 argsW =
      (false,
       { action := MicrohookAction.CONTINUE, args := argsW, ret := 0 },
       [Diag.preHookError 7]) :=
  ⟨rfl, rfl,
   pre_dispatch_catches_failure (fun _ => some preCbFail) 7 argsW preCbFail
     rfl rfl⟩

/-- Claim C2: when the registered pre-hook completes, its return value
is interpreted by truthiness: truthy gives action SKIP with ret taken
from the context's (possibly edited, integer-valued) ret field; falsy
gives action CONTINUE with args taken from the context's (possibly
edited) args when that edit is a well-formed list of 8 integers. -/
theorem pre_dispatch_truthiness (hooks : Int → Option PreHook) (num : Int)
    (args : List Int) (cb : PreHook) (ctx2 : PyCtx) (rv : PyVal)
    (hargs : args.length = 8)
    (hcb : hooks num = some cb)
    (hinv : cb (buildPreCtx num args) = some (ctx2, rv)) :
    (microhook_pre_syscall hooks num args).1 = true ∧
    (rv.truthy = true →
      ((microhook_pre_syscall hooks num args).2.1.action = MicrohookAction.SKIP ∧
       ∀ n : Int, ctx2.ret = some (PyVal.int n) →
         (microhook_pre_syscall hooks num args).2.1.ret = n)) ∧
    (rv.truthy = false →
      ((microhook_pre_syscall hooks num args).2.1.action
          = MicrohookAction.CONTINUE ∧
       ∀ (xs : List PyVal) (ns : List Int),
         ctx2.args = some (PyVal.list xs) → xs.length = 8 →
         asInts xs = some ns →
         (microhook_pre_syscall hooks num args).2.1.args = ns)) := by
  rw [pre_syscall_eq hooks num args cb ctx2 rv hcb hinv]
  refine ⟨rfl, ?_, ?_⟩
  · intro htru
    constructor
    · show (applyPreRetEdit _ _).action = _
      rw [applyPreRetEdit_action, applyPreArgsEdit_action, htru, if_pos rfl]
    · intro n hn
      rw [hn]
      exact applyPreRetEdit_int _ n
  · intro hfls
    constructor
    · show (applyPreRetEdit _ _).action = _
      rw [applyPreRetEdit_action, applyPreArgsEdit_action, hfls]
      rfl
    · intro xs ns hxs h8 hns
      show (applyPreRetEdit _ _).args = ns
      rw [applyPreRetEdit_args, hxs, applyPreArgsEdit_list8 _ _ h8]
      show applyArgEdits args xs = ns
      exact applyArgEdits_asInts args xs ns hns (by rw [hargs, h8])

/-- Claim C2, witness: a truthy hook that edits ret to -13 yields SKIP
with ret -13. -/
theorem pre_dispatch_truthiness_witness :
    (argsW.length = 8) ∧
    ((fun _ : Int => some preCbSkip) 2 = some preCbSkip) ∧
    (preCbSkip (buildPreCtx 2 argsW) = some (ctxSkipW, PyVal.int 1)) ∧
    ((PyVal.int 1).truthy = true) ∧
    ((microhook_pre_syscall (fun _ => some preCbSkip) 2 argsW).2.1.action
      = MicrohookAction.SKIP) ∧
    ((microhook_pre_syscall (fun _ => some preCbSkip) 2 argsW).2.1.ret = -13) := by
  have h := pre_dispatch_truthiness (fun _ => some preCbSkip) 2 argsW preCbSkip
    ctxSkipW (PyVal.int 1) rfl rfl rfl
  exact ⟨rfl, rfl, rfl, rfl, (h.2.1 rfl).1, (h.2.1 rfl).2 (-13) rfl⟩

/-- Claim C4: when the pre-hook leaves the context's args as anything
other than a list of exactly 8 elements, the edit is discarded whole and
the outcome's args equal the original eight input args. -/
theorem pre_dispatch_rejects_bad_args (hooks : Int → Option PreHook)
    (num : Int) (args : List Int) (cb : PreHook) (ctx2 : PyCtx) (rv : PyVal)
    (hcb : hooks num = some cb)
    (hinv : cb (buildPreCtx num args) = some (ctx2, rv))
    (hbad : ∀ xs : List PyVal, ctx2.args = some (PyVal.list xs) → xs.length ≠ 8) :
    (microhook_pre_syscall hooks num args).2.1.args = args := by
  rw [pre_syscall_eq hooks num args cb ctx2 rv hcb hinv]
  show (applyPreRetEdit _ _).args = args
  rw [applyPreRetEdit_args, applyPreArgsEdit_keep _ _ hbad]
  exact ite_result_args _ args

/-- Claim C4, witness: a hook that leaves a 2-element args list; the
outcome keeps the original args. -/
theorem pre_dispatch_rejects_bad_args_witness :
    ((fun _ : Int => some preCbBad) 4 = some preCbBad) ∧
    (preCbBad (buildPreCtx 4 argsW) = some (ctxBadW, PyVal.int 0)) ∧
    ((microhook_pre_syscall (fun _ => some preCbBad) 4 argsW).2.1.args = argsW) :=
  ⟨rfl, rfl,
   pre_dispatch_rejects_bad_args (fun _ => some preCbBad) 4 argsW preCbBad
     ctxBadW (PyVal.int 0) rfl rfl
     (by
       intro xs hx
       simp only [ctxBadW, Option.some.injEq, PyVal.list.injEq] at hx
       rw [← hx]
       decide)⟩

/-- Claim C10: when the pre-hook leaves the context's args as a list of
exactly 8 elements, the edit is applied element-wise: an integer element
replaces the corresponding output argument, any non-integer element
leaves that one argument at its original input value. -/
theorem pre_dispatch_elementwise_args (hooks : Int → Option PreHook)
    (num : Int) (args : List Int) (cb : PreHook) (ctx2 : PyCtx) (rv : PyVal)
    (xs : List PyVal)
    (hargs : args.length = 8)
    (hcb : hooks num = some cb)
    (hinv : cb (buildPreCtx num args) = some (ctx2, rv))
    (hxs : ctx2.args = some (PyVal.list xs)) (h8 : xs.length = 8) :
    ∀ i : Nat, i < 8 →
      (microhook_pre_syscall hooks num args).2.1.args[i]? =
        (match xs[i]? with
         | some (PyVal.int n) => some n
         | _ => args[i]?) := by
  intro i hi
  rw [pre_syscall_eq hooks num args cb ctx2 rv hcb hinv]
  show (applyPreRetEdit _ _).args[i]? = _
  rw [applyPreRetEdit_args, hxs, applyPreArgsEdit_list8 _ _ h8]
  show (applyArgEdits args xs)[i]? = _
  exact applyArgEdits_getElem args xs i (by omega) (by omega)

/-- Claim C10, witness: a mixed edit; slot 0 (integer 100) is replaced,
slot 1 (a string) keeps the original value 11. -/
theorem pre_dispatch_elementwise_args_witness :
    ((fun _ : Int => some preCbMixed) 5 = some preCbMixed) ∧
    (preCbMixed (buildPreCtx 5 argsW) = some (ctxMixedW, PyVal.int 0)) ∧
    ((microhook_pre_syscall (fun _ => some preCbMixed) 5 argsW).2.1.args[0]?
      = some 100) ∧
    ((microhook_pre_syscall (fun _ => some preCbMixed) 5 argsW).2.1.args[1]?
      = some 11) :=
  ⟨rfl, rfl,
   pre_dispatch_elementwise_args (fun _ => some preCbMixed) 5 argsW preCbMixed
     ctxMixedW (PyVal.int 0)
     [PyVal.int 100, PyVal.str "x", PyVal.int 102, PyVal.none,
      PyVal.int 104, PyVal.int 105, PyVal.int 106, PyVal.int 107]
     rfl rfl rfl rfl rfl 0 (by omega),
   pre_dispatch_elementwise_args (fun _ => some preCbMixed) 5 argsW preCbMixed
     ctxMixedW (PyVal.int 0)
     [PyVal.int 100, PyVal.str "x", PyVal.int 102, PyVal.none,
      PyVal.int 104, PyVal.int 105, PyVal.int 106, PyVal.int 107]
     rfl rfl rfl rfl rfl 1 (by omega)⟩

/-- Claim C5: with a registered post-hook, the context handed to the
callback has no ret field; the callback is invoked with the context and
the syscall return value; an integer result becomes the new return
value, a non-integer result keeps the original, and a raising callback
keeps the original return value (with one diagnostic). -/
theorem post_dispatch_outcome (hooks : Int → Option PostHook) (num ret : Int)
    (args : List Int) (cb : PostHook)
    (hcb : hooks num = some cb) :
    (buildPostCtx num args).ret = Option.none ∧
    (∀ (ctx2 : PyCtx) (rv : PyVal),
      cb (buildPostCtx num args) (PyVal.int ret) = some (ctx2, rv) →
      ((∀ n : Int, rv = PyVal.int n →
          microhook_post_syscall hooks num ret args = (n, [])) ∧
       (rv.isInt = false →
          microhook_post_syscall hooks num ret args = (ret, [])))) ∧
    (cb (buildPostCtx num args) (PyVal.int ret) = Option.none →
      microhook_post_syscall hooks num ret args =
        (ret, [Diag.postHookError num])) := by
  refine ⟨rfl, ?_, ?_⟩
  · intro ctx2 rv hres
    constructor
    · intro n hn
      subst hn
      simp only [microhook_post_syscall, hcb, hres]
    · intro hni
      simp only [microhook_post_syscall, hcb, hres]
      cases rv with
      | int n => simp [PyVal.isInt] at hni
      | list xs => rfl
      | str s => rfl
      | none => rfl
  · intro hfail
    simp only [microhook_post_syscall, hcb, hfail]

/-- Claim C5, witness: a post-hook returning the integer 42 replaces the
original return value 7. -/
theorem post_dispatch_outcome_witness :
    ((fun _ : Int => some postCbOk) 3 = some postCbOk) ∧
    ((buildPostCtx 3 argsW).ret = Option.none) ∧
    (postCbOk (buildPostCtx 3 argsW) (PyVal.int 7)
      = some (buildPostCtx 3 argsW, PyVal.int 42)) ∧
    (microhook_post_syscall (fun _ => some postCbOk) 3 7 argsW = (42, [])) := by
  have h := post_dispatch_outcome (fun _ => some postCbOk) 3 7 argsW postCbOk rfl
  exact ⟨rfl, h.1, rfl, (h.2.1 (buildPostCtx 3 argsW) (PyVal.int 42) rfl).1 42 rfl⟩

/- ---------------- Templater helper lemmas ---------------- -/

lemma digitChar_mod_ten (x : Nat) : (Nat.digitChar (x % 10)).isDigit = true := by
  have hall : ∀ d : Nat, d < 10 → (Nat.digitChar d).isDigit = true := by decide
  exact hall (x % 10) (Nat.mod_lt x (by decide))

/- ---------------- Templater claim theorem ---------------- -/

/-- Claim C8: each `%d` expands to the (parametrised) local timestamp
whose shape is `YYYY-MM-DD-HH:MM:SS`, each `%s` to the program name, a
null program name becomes the literal "unknown", `%%` becomes a single
literal `%`, any other `%X` passes through with both characters
preserved, and a non-`%` character is copied verbatim. -/
theorem expand_token_semantics :
    (∀ (dt prog rest : List Char),
      expandChars dt prog ('%' :: 'd' :: rest) = dt ++ expandChars dt prog rest) ∧
    (∀ (dt prog rest : List Char),
      expandChars dt prog ('%' :: 's' :: rest) = prog ++ expandChars dt prog rest) ∧
    (∀ (dt prog rest : List Char),
      expandChars dt prog ('%' :: '%' :: rest) = '%' :: expandChars dt prog rest) ∧
    (∀ (dt prog rest : List Char) (c : Char), c ≠ 'd' → c ≠ 's' → c ≠ '%' →
      expandChars dt prog ('%' :: c :: rest) = '%' :: c :: expandChars dt prog rest) ∧
    (∀ (dt prog rest : List Char) (c : Char), c ≠ '%' →
      expandChars dt prog (c :: rest) = c :: expandChars dt prog rest) ∧
    (∀ (tpl : String) (tm : Tm),
      expand_filename_template tpl Option.none tm =
        expand_filename_template tpl (some "unknown") tm) ∧
    (∀ tm : Tm, matchesTimestampFormat (strftimeDatetime tm) = true) := by
  have hstep : ∀ (dt prog rest : List Char) (c : Char), c ≠ '%' →
      expandChars dt prog (c :: rest) = c :: expandChars dt prog rest := by
    intro dt prog rest c h
    cases rest with
    | nil => simp [expandChars, h]
    | cons c2 r2 =>
      simp only [expandChars]
      rw [if_neg h]
  refine ⟨?_, ?_, ?_, ?_, hstep, ?_, ?_⟩
  · intro dt prog rest
    rfl
  · intro dt prog rest
    rfl
  · intro dt prog rest
    rfl
  · intro dt prog rest c hd hs hp
    simp only [expandChars]
    rw [if_pos trivial, if_neg hd, if_neg hs, if_neg hp]
    rw [hstep dt prog rest c hp]
  · intro tpl tm
    rfl
  · intro tm
    simp only [strftimeDatetime, pad4, pad2, List.cons_append, List.nil_append,
      matchesTimestampFormat]
    simp [digitChar_mod_ten]

/-- Claim C8, witness: an unknown specifier `%q` passes through with
both characters preserved. -/
theorem expand_token_semantics_witness :
    ((('q' : Char) ≠ 'd') ∧ (('q' : Char) ≠ 's') ∧ (('q' : Char) ≠ '%')) ∧
    expandChars ['D'] ['p'] ['%', 'q'] = '%' :: 'q' :: expandChars ['D'] ['p'] [] :=
  ⟨⟨by decide, by decide, by decide⟩,
   expand_token_semantics.2.2.2.1 ['D'] ['p'] [] 'q'
     (by decide) (by decide) (by decide)⟩

end Microhook
